import Mathlib

/-
  Verification of the RACF audit cog (src/racf_audit/racf_audit.py).

  The relevant program fragments are shallowly embedded below:
  - clean_tag (lines 150-159): player-tag normalization;
  - clan_roles (lines 392-400): the clan-name -> role-name dictionary,
    modelled as an association list with unique keys in config order;
  - the classification loop of racfaudit_run (lines 629-689), modelled as
    the function classify; Python exceptions (KeyError from dict indexing,
    AttributeError from calling .lower() on None) are modelled with Except;
  - the role-operation sections of racfaudit_run executed under --exec
    (lines 770-790 and 803-825), modelled as planNoClanRole and
    planNotInOurClans emitting lists of RoleOp values.

  Python strings are modelled as Lean strings; str.upper and str.lower are
  modelled character-wise with Char.toUpper / Char.toLower (exact on the
  ASCII range, where tags and role names live); str.strip is modelled with
  Char.isWhitespace.  Discord member objects are modelled by their id and
  the list of their role names; discord.py compares members by id, so the
  membership test of the not_in_our_clans loop compares ids.
-/

namespace RacfAudit

/-! ## Character-level helpers -/

/-- Value of Char.ofNat at a valid code point. -/
theorem charToNat_ofNat_valid (n : Nat) (h : n.isValidChar) :
    (Char.ofNat n).toNat = n := by
  rw [Char.ofNat, dif_pos h]
  simp [Char.ofNatAux, Char.toNat, UInt32.toNat, BitVec.toNat_ofNatLt]

/-- Characters are equal iff their code points are. -/
theorem char_eq_iff_toNat (a b : Char) : a = b ↔ a.toNat = b.toNat := by
  constructor
  · intro h
    rw [h]
  · intro h
    exact Char.ext (UInt32.ext h)

/-- Char.toUpper is idempotent. -/
theorem char_toUpper_toUpper (c : Char) : c.toUpper.toUpper = c.toUpper := by
  unfold Char.toUpper
  by_cases h : 97 ≤ c.toNat ∧ c.toNat ≤ 122
  · simp only [ge_iff_le, h, and_self, if_true]
    have hval : (c.toNat - 32).isValidChar := by
      unfold Nat.isValidChar
      omega
    have hv : (Char.ofNat (c.toNat - 32)).toNat = c.toNat - 32 :=
      charToNat_ofNat_valid _ hval
    rw [if_neg]
    rw [hv]
    omega
  · simp only [ge_iff_le, if_neg h]

/-- Char.toUpper maps whitespace to whitespace and non-whitespace to
non-whitespace. -/
theorem char_toUpper_isWhitespace (c : Char) :
    (Char.toUpper c).isWhitespace = c.isWhitespace := by
  unfold Char.toUpper
  by_cases h : 97 ≤ c.toNat ∧ c.toNat ≤ 122
  · simp only [ge_iff_le, h, and_self, if_true]
    have hval : (c.toNat - 32).isValidChar := by
      unfold Nat.isValidChar
      omega
    have hv : (Char.ofNat (c.toNat - 32)).toNat = c.toNat - 32 :=
      charToNat_ofNat_valid _ hval
    unfold Char.isWhitespace
    have hsp : (' ' : Char).toNat = 32 := by decide
    have htb : ('\t' : Char).toNat = 9 := by decide
    have hcr : ('\r' : Char).toNat = 13 := by decide
    have hnl : ('\n' : Char).toNat = 10 := by decide
    simp only [char_eq_iff_toNat, hv, hsp, htb, hcr, hnl]
    have g1 : ¬ (c.toNat - 32 = 32) := by omega
    have g2 : ¬ (c.toNat - 32 = 9) := by omega
    have g3 : ¬ (c.toNat - 32 = 13) := by omega
    have g4 : ¬ (c.toNat - 32 = 10) := by omega
    have k1 : ¬ (c.toNat = 32) := by omega
    have k2 : ¬ (c.toNat = 9) := by omega
    have k3 : ¬ (c.toNat = 13) := by omega
    have k4 : ¬ (c.toNat = 10) := by omega
    simp [g1, g2, g3, g4, k1, k2, k3, k4]
  · simp only [ge_iff_le, if_neg h]

/-! ## List-level helpers for Python str.strip -/

/-- dropWhile is idempotent. -/
theorem dropWhile_dropWhile_self (p : Char → Bool) (l : List Char) :
    (l.dropWhile p).dropWhile p = l.dropWhile p := by
  induction l with
  | nil => rfl
  | cons a t ih =>
    by_cases h : p a
    · simp [List.dropWhile_cons, h, ih]
    · simp [List.dropWhile_cons, h]

/-- If dropWhile leaves a cons unchanged, the head fails the predicate. -/
theorem head_false_of_dropWhile_eq (p : Char → Bool) (a : Char) (l : List Char)
    (h : (a :: l).dropWhile p = a :: l) : p a = false := by
  by_contra hpa
  have hpa' : p a = true := by
    revert hpa
    cases p a <;> simp
  rw [List.dropWhile_cons, if_pos hpa'] at h
  have hs := (List.dropWhile_suffix (l := l) p).length_le
  have := congrArg List.length h
  simp at this
  omega

/-- Python str.strip on a character list. -/
def pyStrip (l : List Char) : List Char :=
  ((l.dropWhile Char.isWhitespace).reverse.dropWhile Char.isWhitespace).reverse

/-- pyStrip is idempotent. -/
theorem pyStrip_idem (l : List Char) : pyStrip (pyStrip l) = pyStrip l := by
  unfold pyStrip
  set ws := Char.isWhitespace with hws
  set A := l.dropWhile ws with hA
  have hAA : A.dropWhile ws = A := by
    rw [hA]
    exact dropWhile_dropWhile_self ws l
  set B := (A.reverse.dropWhile ws).reverse with hB
  have hBrev : B.reverse = A.reverse.dropWhile ws := by
    rw [hB, List.reverse_reverse]
  obtain ⟨t, ht⟩ := List.dropWhile_suffix (l := A.reverse) ws
  have hAB : A = B ++ t.reverse := by
    have h1 : A.reverse = t ++ B.reverse := by
      rw [hBrev]
      exact ht.symm
    have h2 := congrArg List.reverse h1
    simpa using h2
  have claim1 : B.dropWhile ws = B := by
    cases hBc : B with
    | nil => rfl
    | cons b bt =>
      have hA2 : A = b :: (bt ++ t.reverse) := by
        rw [hAB, hBc]
        rfl
      have hhead : ws b = false := by
        apply head_false_of_dropWhile_eq ws b (bt ++ t.reverse)
        rw [← hA2]
        exact hAA
      rw [List.dropWhile_cons, hhead]
      simp
  have claim2 : B.reverse.dropWhile ws = B.reverse := by
    rw [hBrev]
    exact dropWhile_dropWhile_self ws A.reverse
  rw [claim1, claim2, List.reverse_reverse]

/-- dropWhile whitespace commutes with mapping Char.toUpper. -/
theorem dropWhile_ws_map_toUpper (l : List Char) :
    (l.map Char.toUpper).dropWhile Char.isWhitespace
      = (l.dropWhile Char.isWhitespace).map Char.toUpper := by
  induction l with
  | nil => rfl
  | cons a t ih =>
    simp only [List.map_cons, List.dropWhile_cons, char_toUpper_isWhitespace]
    by_cases h : a.isWhitespace
    · simp [h, ih]
    · simp [h]

/-- pyStrip commutes with mapping Char.toUpper. -/
theorem pyStrip_map_toUpper (l : List Char) :
    pyStrip (l.map Char.toUpper) = (pyStrip l).map Char.toUpper := by
  unfold pyStrip
  rw [dropWhile_ws_map_toUpper, ← List.map_reverse, dropWhile_ws_map_toUpper,
    ← List.map_reverse]

/-- Mapping Char.toUpper is idempotent. -/
theorem map_toUpper_idem (l : List Char) :
    (l.map Char.toUpper).map Char.toUpper = l.map Char.toUpper := by
  rw [List.map_map]
  have : Char.toUpper ∘ Char.toUpper = Char.toUpper := by
    funext c
    exact char_toUpper_toUpper c
  rw [this]

/-! ## clean_tag (racf_audit.py lines 150-159) -/

/-- Python `if t.startswith const_hash: t = t[1:]` specialised to a single
leading hash character, as in clean_tag. -/
def dropLeadingHash : List Char → List Char
  | '#' :: t => t
  | l => l

/-- The body of clean_tag on the character list of a non-None string:
strip one leading hash, strip whitespace, uppercase. -/
def cleanTagChars (l : List Char) : List Char :=
  (pyStrip (dropLeadingHash l)).map Char.toUpper

/-- clean_tag from racf_audit.py lines 150-159: None passes through, any
other tag is cleaned by cleanTagChars. -/
def clean_tag : Option String → Option String
  | none => none
  | some s => some (String.mk (cleanTagChars s.data))

/-- If a list does not start with a hash, dropLeadingHash leaves it alone. -/
theorem dropLeadingHash_of_head_ne (l : List Char) (h : l.head? ≠ some '#') :
    dropLeadingHash l = l := by
  cases l with
  | nil => rfl
  | cons c t =>
    have hc : c ≠ '#' := by
      intro hc
      apply h
      rw [hc]
      rfl
    unfold dropLeadingHash
    split
    · next heq => simp_all
    · rfl

/-- cleanTagChars is idempotent on inputs whose cleaned form does not start
with a hash character. -/
theorem cleanTagChars_idem (x : List Char)
    (h : (cleanTagChars x).head? ≠ some '#') :
    cleanTagChars (cleanTagChars x) = cleanTagChars x := by
  have h1 : dropLeadingHash (cleanTagChars x) = cleanTagChars x :=
    dropLeadingHash_of_head_ne _ h
  unfold cleanTagChars at h1 ⊢
  rw [h1]
  rw [pyStrip_map_toUpper, pyStrip_idem, map_toUpper_idem]

/-- Concrete tag example with a leading hash. -/
def tagExampleHash : String := "#22Q0VGUP"

/-- Concrete tag example, lower case with surrounding spaces. -/
def tagExampleLower : String := " 22q0vgup "

/-- Concrete normalized tag. -/
def tagExampleNorm : String := "22Q0VGUP"

/-- Concrete tag on which clean_tag is not idempotent: the hash strip runs
before the whitespace strip, so a doubled hash survives one cleaning. -/
def badTagExample : String := "##AB"

/-- C1 (corrected): clean_tag is idempotent for every tag whose cleaned
form does not start with a hash character, and the three concrete example
normalizations of the claim hold.  Idempotence fails in general (see
clean_tag_not_idempotent): clean_tag strips at most one leading hash and
does so before stripping whitespace. -/
theorem clean_tag_idem_of_no_leading_hash :
    (∀ s : String, (cleanTagChars s.data).head? ≠ some '#' →
      clean_tag (clean_tag (some s)) = clean_tag (some s))
    ∧ clean_tag (some tagExampleHash) = some tagExampleNorm
    ∧ clean_tag (some tagExampleLower) = some tagExampleNorm
    ∧ clean_tag (some tagExampleNorm) = some tagExampleNorm := by
  refine ⟨?_, by decide, by decide, by decide⟩
  intro s h
  show some (String.mk (cleanTagChars (String.mk (cleanTagChars s.data)).data))
    = some (String.mk (cleanTagChars s.data))
  rw [cleanTagChars_idem s.data h]

/-- Witness for clean_tag_idem_of_no_leading_hash at a concrete tag. -/
theorem clean_tag_idem_witness :
    clean_tag (clean_tag (some tagExampleLower)) = clean_tag (some tagExampleLower) :=
  clean_tag_idem_of_no_leading_hash.1 tagExampleLower (by decide)

/-- C1 counterexample: on the concrete tag with a doubled hash, cleaning a
cleaned tag changes it again, so clean_tag is not idempotent as claimed. -/
theorem clean_tag_not_idempotent :
    clean_tag (clean_tag (some badTagExample)) ≠ clean_tag (some badTagExample) := by
  decide

/-- C10 (confirmed): clean_tag is total over its optional input: the absent
value maps to the absent value, and every present string maps to a present
string. -/
theorem clean_tag_total :
    clean_tag none = none ∧ ∀ s : String, ∃ t : String, clean_tag (some s) = some t :=
  ⟨rfl, fun s => ⟨String.mk (cleanTagChars s.data), rfl⟩⟩

/-! ## Data model of the audit run (racfaudit_run, lines 629-689) -/

/-- Python str.lower, character-wise (exact on the ASCII range). -/
def pyLower (s : String) : String := String.mk (s.data.map Char.toLower)

/-- Python exceptions that the classification loop can raise: KeyError from
dict indexing (self.clan_roles of line 672) and AttributeError from
calling .lower() on None (line 661 etc. when the roster role is absent). -/
inductive PyErr where
  | keyError (k : String)
  | attributeError
deriving DecidableEq

/-- A Discord member, reduced to what the audit reads: its id and the
names of its roles.  discord.py compares members by id. -/
structure DMember where
  id : Nat
  roles : List String
deriving DecidableEq

/-- A roster record as handed to the classification loop: the member_model
dict produced by family_member_models, after the discord-association loop
of lines 612-619.  role and trophies are read with dict.get and may be
absent; tag and clan name are always set by family_member_models. -/
structure MemberModel where
  tag : String
  name : String
  role : Option String
  trophies : Option Int
  clanName : String
  discordMember : Option DMember
deriving DecidableEq

/-- The audit_results dict of lines 629-637: seven ordered buckets. -/
structure Buckets where
  elder_promotion_req : List MemberModel
  coleader_promotion_req : List MemberModel
  leader_promotion_req : List MemberModel
  no_discord : List MemberModel
  no_clan_role : List (DMember × MemberModel)
  no_member_role : List DMember
  not_in_our_clans : List DMember
deriving DecidableEq

/-- The seven buckets, all empty, as initialised at lines 629-637. -/
def emptyBuckets : Buckets := ⟨[], [], [], [], [], [], []⟩

/-- Role-name string constants appearing in racfaudit_run. -/
def elderName : String := "elder"

/-- See elderName. -/
def coleaderName : String := "coleader"

/-- See elderName. -/
def leaderName : String := "leader"

/-- The literal community role name of the member check (lines 681, 687). -/
def memberRoleName : String := "Member"

/-- The role granted to members not in our clans (line 824). -/
def visitorRoleName : String := "Visitor"

/-- Exempt role (line 807). -/
def specialRoleName : String := "Special"

/-- Exempt role (line 809). -/
def keepMemberRoleName : String := "Keep-Member"

/-- Exempt role (line 811). -/
def leaderEmeritusRoleName : String := "Leader-Emeritus"

/-- Candidate role to remove (line 815). -/
def tourneyRoleName : String := "Tourney"

/-- Candidate role to remove (line 815). -/
def practiceRoleName : String := "Practice"

/-- The clan_roles dictionary of lines 392-400, modelled as an association
list (clan name, role_name) over the config entries of type Member, in
config order with unique clan names; lookup finds the first match. -/
def lookupRole : List (String × String) → String → Option String
  | [], _ => none
  | (a, b) :: rest, k => if a = k then some b else lookupRole rest k

/-- One promotion-tier check of lines 650-668 for a resolved member: the
flag is_<tier> is set from the Discord roles; when set, the roster role is
read with member_model.get, so a missing roster role raises
AttributeError from None.lower(). -/
def tierStep (tier : String) (dm : DMember) (m : MemberModel) :
    Except PyErr Bool :=
  if dm.roles.any (fun r => pyLower r == tier) then
    match m.role with
    | none => Except.error PyErr.attributeError
    | some r => Except.ok (pyLower r != tier)
  else Except.ok false

/-- The body of the classification loop of lines 641-682 for one roster
record: no_discord, the three promotion tiers, the clan-role check (with
the bare dict indexing of line 672, raising KeyError on an unknown clan),
and the member-role check.  The state is the buckets plus the
discord_members list accumulated at line 648. -/
def processModel (cr : List (String × String)) (st : Buckets × List DMember)
    (m : MemberModel) : Except PyErr (Buckets × List DMember) :=
  match m.discordMember with
  | none => Except.ok ({ st.1 with no_discord := st.1.no_discord ++ [m] }, st.2)
  | some dm =>
    match tierStep elderName dm m with
    | Except.error err => Except.error err
    | Except.ok e =>
      match tierStep coleaderName dm m with
      | Except.error err => Except.error err
      | Except.ok c =>
        match tierStep leaderName dm m with
        | Except.error err => Except.error err
        | Except.ok ld =>
          match lookupRole cr m.clanName with
          | none => Except.error (PyErr.keyError m.clanName)
          | some crn =>
            Except.ok
              ({ st.1 with
                  elder_promotion_req :=
                    st.1.elder_promotion_req ++ (if e then [m] else []),
                  coleader_promotion_req :=
                    st.1.coleader_promotion_req ++ (if c then [m] else []),
                  leader_promotion_req :=
                    st.1.leader_promotion_req ++ (if ld then [m] else []),
                  no_clan_role :=
                    st.1.no_clan_role ++
                      (if dm.roles.contains crn then [] else [(dm, m)]),
                  no_member_role :=
                    st.1.no_member_role ++
                      (if dm.roles.contains memberRoleName then [] else [dm]) },
               st.2 ++ [dm])

/-- The classification section of racfaudit_run (lines 629-689): fold the
loop body over the roster, then fill not_in_our_clans from the server
member directory (lines 684-689; membership in discord_members is by
member id, as discord.py defines member equality). -/
def classify (cr : List (String × String)) (models : List MemberModel)
    (serverMembers : List DMember) : Except PyErr Buckets :=
  match models.foldlM (processModel cr) (emptyBuckets, ([] : List DMember)) with
  | Except.error err => Except.error err
  | Except.ok (b, dms) =>
    Except.ok
      { b with
        not_in_our_clans :=
          serverMembers.filter
            (fun u => u.roles.contains memberRoleName
              && ! dms.any (fun d => d.id == u.id)) }

/-! ## Declarative descriptions of the buckets -/

/-- Declarative promotion-tier condition: the member holds a Discord role
whose lowercased name equals the tier, and the roster role, lowercased,
differs from the tier. -/
def promoReq (tier : String) (m : MemberModel) : Bool :=
  match m.discordMember with
  | none => false
  | some dm =>
    dm.roles.any (fun r => pyLower r == tier) && ! (m.role.map pyLower == some tier)

/-- Declarative no_clan_role condition: the pair emitted for a resolved
record whose configured clan role the member lacks. -/
def noClanRolePair (cr : List (String × String)) (m : MemberModel) :
    Option (DMember × MemberModel) :=
  match m.discordMember with
  | none => none
  | some dm =>
    match lookupRole cr m.clanName with
    | none => none
    | some crn => if dm.roles.contains crn then none else some (dm, m)

/-- Declarative no_member_role condition. -/
def noMemberRoleEntry (m : MemberModel) : Option DMember :=
  match m.discordMember with
  | none => none
  | some dm => if dm.roles.contains memberRoleName then none else some dm

/-- The resolved Discord members, in roster order (the discord_members
list of the loop). -/
def accounted (models : List MemberModel) : List DMember :=
  models.filterMap MemberModel.discordMember

/-- The condition under which one roster record passes the loop body
without raising: if any promotion flag is set the roster role must be
present, and the record's clan must be in the clan_roles dict. -/
def entryOk (cr : List (String × String)) (m : MemberModel) : Prop :=
  match m.discordMember with
  | none => True
  | some dm =>
    ((dm.roles.any (fun r => pyLower r == elderName)
      || dm.roles.any (fun r => pyLower r == coleaderName)
      || dm.roles.any (fun r => pyLower r == leaderName)) = true → m.role.isSome)
    ∧ (lookupRole cr m.clanName).isSome

/-! ## Behaviour of one loop iteration -/

/-- A successful tier check computes exactly the declarative promotion
condition. -/
theorem tierStep_ok_eq (tier : String) (dm : DMember) (m : MemberModel)
    (e : Bool) (hdm : m.discordMember = some dm)
    (h : tierStep tier dm m = Except.ok e) : e = promoReq tier m := by
  unfold tierStep at h
  have hgoal : promoReq tier m
      = (dm.roles.any (fun r => pyLower r == tier)
          && ! (m.role.map pyLower == some tier)) := by
    unfold promoReq
    rw [hdm]
  rw [hgoal]
  by_cases hf : dm.roles.any (fun r => pyLower r == tier)
  · rw [if_pos hf] at h
    cases hrole : m.role with
    | none =>
      rw [hrole] at h
      exact absurd h (by simp)
    | some r =>
      rw [hrole] at h
      have h2 : (pyLower r != tier) = e := by
        injection h
      rw [← h2, hf]
      simp [hrole, bne]
  · rw [if_neg hf] at h
    have h2 : false = e := by
      injection h
    have hf' : dm.roles.any (fun r => pyLower r == tier) = false := by
      revert hf
      cases dm.roles.any (fun r => pyLower r == tier) <;> simp
    rw [← h2, hf']
    simp

/-- A tier check on a record whose roster role is present never raises. -/
theorem tierStep_ok_roleSome (tier : String) (dm : DMember)
    (m : MemberModel) (r : String) (hrole : m.role = some r) :
    ∃ e, tierStep tier dm m = Except.ok e := by
  unfold tierStep
  by_cases hf : dm.roles.any (fun r => pyLower r == tier)
  · rw [if_pos hf, hrole]
    exact ⟨_, rfl⟩
  · rw [if_neg hf]
    exact ⟨false, rfl⟩

/-- A tier check whose Discord flag is unset returns false. -/
theorem tierStep_ok_flagFalse (tier : String) (dm : DMember) (m : MemberModel)
    (hf : dm.roles.any (fun r => pyLower r == tier) = false) :
    tierStep tier dm m = Except.ok false := by
  unfold tierStep
  rw [hf]
  simp

/-- A tier check whose Discord flag is set but whose roster role is absent
raises AttributeError, as None.lower() does. -/
theorem tierStep_error_of (tier : String) (dm : DMember) (m : MemberModel)
    (hf : dm.roles.any (fun r => pyLower r == tier) = true)
    (hr : m.role = none) :
    tierStep tier dm m = Except.error PyErr.attributeError := by
  unfold tierStep
  rw [if_pos hf, hr]

/-- Effect of one successful loop iteration on the buckets and on the
discord_members accumulator. -/
theorem processModel_ok_eq (cr : List (String × String))
    (st st' : Buckets × List DMember) (m : MemberModel)
    (h : processModel cr st m = Except.ok st') :
    st'.1.elder_promotion_req
      = st.1.elder_promotion_req ++ (if promoReq elderName m then [m] else [])
    ∧ st'.1.coleader_promotion_req
      = st.1.coleader_promotion_req ++ (if promoReq coleaderName m then [m] else [])
    ∧ st'.1.leader_promotion_req
      = st.1.leader_promotion_req ++ (if promoReq leaderName m then [m] else [])
    ∧ st'.1.no_discord
      = st.1.no_discord ++ (if m.discordMember.isNone then [m] else [])
    ∧ st'.1.no_clan_role = st.1.no_clan_role ++ (noClanRolePair cr m).toList
    ∧ st'.1.no_member_role = st.1.no_member_role ++ (noMemberRoleEntry m).toList
    ∧ st'.1.not_in_our_clans = st.1.not_in_our_clans
    ∧ st'.2 = st.2 ++ m.discordMember.toList := by
  cases hdm : m.discordMember with
  | none =>
    unfold processModel at h
    rw [hdm] at h
    simp only [Except.ok.injEq] at h
    have hpr : ∀ tier, promoReq tier m = false := by
      intro tier
      unfold promoReq
      rw [hdm]
    have hncr : noClanRolePair cr m = none := by
      unfold noClanRolePair
      rw [hdm]
    have hnmr : noMemberRoleEntry m = none := by
      unfold noMemberRoleEntry
      rw [hdm]
    subst h
    simp [hpr, hncr, hnmr, hdm]
  | some dm =>
    unfold processModel at h
    rw [hdm] at h
    simp only [] at h
    cases he : tierStep elderName dm m with
    | error err =>
      rw [he] at h
      exact absurd h (by simp)
    | ok e =>
      rw [he] at h
      cases hc : tierStep coleaderName dm m with
      | error err =>
        rw [hc] at h
        exact absurd h (by simp)
      | ok c =>
        rw [hc] at h
        cases hl : tierStep leaderName dm m with
        | error err =>
          rw [hl] at h
          exact absurd h (by simp)
        | ok ld =>
          rw [hl] at h
          cases hlook : lookupRole cr m.clanName with
          | none =>
            rw [hlook] at h
            exact absurd h (by simp)
          | some crn =>
            rw [hlook] at h
            simp only [Except.ok.injEq] at h
            have he' : e = promoReq elderName m := tierStep_ok_eq _ _ _ _ hdm he
            have hc' : c = promoReq coleaderName m := tierStep_ok_eq _ _ _ _ hdm hc
            have hl' : ld = promoReq leaderName m := tierStep_ok_eq _ _ _ _ hdm hl
            have hncr : (noClanRolePair cr m).toList
                = (if dm.roles.contains crn then [] else [(dm, m)]) := by
              unfold noClanRolePair
              rw [hdm, hlook]
              by_cases hcon : crn ∈ dm.roles
              · simp [hcon]
              · simp [hcon]
            have hnmr : (noMemberRoleEntry m).toList
                = (if dm.roles.contains memberRoleName then [] else [dm]) := by
              unfold noMemberRoleEntry
              rw [hdm]
              by_cases hcon : memberRoleName ∈ dm.roles
              · simp [hcon]
              · simp [hcon]
            subst h
            refine ⟨?_, ?_, ?_, ?_, ?_, ?_, rfl, ?_⟩
            · rw [← he']
            · rw [← hc']
            · rw [← hl']
            · simp
            · rw [hncr]
            · rw [hnmr]
            · simp

/-! ## The fold invariant of the classification loop -/

/-- Characterization of a successful run of the classification fold:
every bucket is the initial bucket followed by the entries selected by the
corresponding declarative condition, in roster order, and the
discord_members accumulator collects the resolved members in order. -/
theorem foldl_processModel_ok (cr : List (String × String)) :
    ∀ (models : List MemberModel) (b0 : Buckets) (d0 : List DMember)
      (b1 : Buckets) (d1 : List DMember),
      models.foldlM (processModel cr) (b0, d0) = Except.ok (b1, d1) →
      b1.elder_promotion_req
        = b0.elder_promotion_req ++ models.filter (promoReq elderName)
      ∧ b1.coleader_promotion_req
        = b0.coleader_promotion_req ++ models.filter (promoReq coleaderName)
      ∧ b1.leader_promotion_req
        = b0.leader_promotion_req ++ models.filter (promoReq leaderName)
      ∧ b1.no_discord
        = b0.no_discord ++ models.filter (fun m => m.discordMember.isNone)
      ∧ b1.no_clan_role
        = b0.no_clan_role ++ models.filterMap (noClanRolePair cr)
      ∧ b1.no_member_role
        = b0.no_member_role ++ models.filterMap noMemberRoleEntry
      ∧ b1.not_in_our_clans = b0.not_in_our_clans
      ∧ d1 = d0 ++ accounted models := by
  intro models
  induction models with
  | nil =>
    intro b0 d0 b1 d1 h
    simp only [List.foldlM_nil, pure, Except.pure, Except.ok.injEq,
      Prod.mk.injEq] at h
    obtain ⟨hb, hd⟩ := h
    subst hb
    subst hd
    simp [accounted]
  | cons m rest ih =>
    intro b0 d0 b1 d1 h
    rw [List.foldlM_cons] at h
    cases hstep : processModel cr (b0, d0) m with
    | error err =>
      rw [hstep] at h
      exact absurd h (by simp [Bind.bind, Except.bind])
    | ok st' =>
      rw [hstep] at h
      have h' : rest.foldlM (processModel cr) st' = Except.ok (b1, d1) := by
        simpa [Bind.bind, Except.bind] using h
      obtain ⟨b', d'⟩ := st'
      obtain ⟨r1, r2, r3, r4, r5, r6, r7, r8⟩ := ih b' d' b1 d1 h'
      obtain ⟨s1, s2, s3, s4, s5, s6, s7, s8⟩ :=
        processModel_ok_eq cr (b0, d0) (b', d') m hstep
      dsimp only at s1 s2 s3 s4 s5 s6 s7 s8
      have hext : ∀ (p : MemberModel → Bool) (xs : List MemberModel),
          (if p m then [m] else []) ++ xs.filter p = (m :: xs).filter p := by
        intro p xs
        by_cases hp : p m
        · simp [List.filter_cons, hp]
        · simp [List.filter_cons, hp]
      have hextO : ∀ {α : Type} (f : MemberModel → Option α)
          (xs : List MemberModel),
          (f m).toList ++ xs.filterMap f = (m :: xs).filterMap f := by
        intro α f xs
        cases hf : f m
        · simp [List.filterMap_cons, hf]
        · simp [List.filterMap_cons, hf]
      refine ⟨?_, ?_, ?_, ?_, ?_, ?_, ?_, ?_⟩
      · rw [r1, s1, List.append_assoc, hext]
      · rw [r2, s2, List.append_assoc, hext]
      · rw [r3, s3, List.append_assoc, hext]
      · rw [r4, s4, List.append_assoc,
          hext (fun m => m.discordMember.isNone) rest]
      · rw [r5, s5, List.append_assoc, hextO]
      · rw [r6, s6, List.append_assoc, hextO]
      · rw [r7, s7]
      · rw [r8, s8, List.append_assoc]
        unfold accounted
        rw [hextO MemberModel.discordMember rest]

/-- Characterization of a successful classification: every bucket equals
the declarative filter of the inputs, in input order. -/
theorem classify_ok_eq (cr : List (String × String)) (models : List MemberModel)
    (sm : List DMember) (b : Buckets)
    (h : classify cr models sm = Except.ok b) :
    b.elder_promotion_req = models.filter (promoReq elderName)
    ∧ b.coleader_promotion_req = models.filter (promoReq coleaderName)
    ∧ b.leader_promotion_req = models.filter (promoReq leaderName)
    ∧ b.no_discord = models.filter (fun m => m.discordMember.isNone)
    ∧ b.no_clan_role = models.filterMap (noClanRolePair cr)
    ∧ b.no_member_role = models.filterMap noMemberRoleEntry
    ∧ b.not_in_our_clans
      = sm.filter (fun u => u.roles.contains memberRoleName
          && ! (accounted models).any (fun d => d.id == u.id)) := by
  unfold classify at h
  cases hfold : models.foldlM (processModel cr) (emptyBuckets, ([] : List DMember)) with
  | error err =>
    rw [hfold] at h
    exact absurd h (by simp)
  | ok st =>
    obtain ⟨b', dms⟩ := st
    rw [hfold] at h
    simp only [Except.ok.injEq] at h
    obtain ⟨i1, i2, i3, i4, i5, i6, i7, i8⟩ :=
      foldl_processModel_ok cr models emptyBuckets [] b' dms hfold
    subst h
    refine ⟨?_, ?_, ?_, ?_, ?_, ?_, ?_⟩
    · rw [i1]
      simp [emptyBuckets]
    · rw [i2]
      simp [emptyBuckets]
    · rw [i3]
      simp [emptyBuckets]
    · rw [i4]
      simp [emptyBuckets]
    · rw [i5]
      simp [emptyBuckets]
    · rw [i6]
      simp [emptyBuckets]
    · show sm.filter (fun u => u.roles.contains memberRoleName
          && ! dms.any (fun d => d.id == u.id)) = _
      rw [i8]
      simp

/-- A loop iteration succeeds exactly on records satisfying entryOk; in
particular success never depends on the incoming state. -/
theorem processModel_ok_iff_entryOk (cr : List (String × String))
    (st : Buckets × List DMember) (m : MemberModel) :
    (∃ st', processModel cr st m = Except.ok st') ↔ entryOk cr m := by
  cases hdm : m.discordMember with
  | none =>
    have hE : entryOk cr m := by
      unfold entryOk
      rw [hdm]
      trivial
    constructor
    · intro _
      exact hE
    · intro _
      refine ⟨({ st.1 with no_discord := st.1.no_discord ++ [m] }, st.2), ?_⟩
      unfold processModel
      rw [hdm]
  | some dm =>
    have hEiff : entryOk cr m ↔
        (((dm.roles.any (fun r => pyLower r == elderName)
          || dm.roles.any (fun r => pyLower r == coleaderName)
          || dm.roles.any (fun r => pyLower r == leaderName)) = true → m.role.isSome)
        ∧ (lookupRole cr m.clanName).isSome) := by
      unfold entryOk
      rw [hdm]
    rw [hEiff]
    constructor
    · rintro ⟨st', hst⟩
      unfold processModel at hst
      simp only [hdm] at hst
      cases he : tierStep elderName dm m with
      | error err =>
        simp only [he] at hst
        exact absurd hst (by simp)
      | ok e =>
        simp only [he] at hst
        cases hc : tierStep coleaderName dm m with
        | error err =>
          simp only [hc] at hst
          exact absurd hst (by simp)
        | ok c =>
          simp only [hc] at hst
          cases hl : tierStep leaderName dm m with
          | error err =>
            simp only [hl] at hst
            exact absurd hst (by simp)
          | ok ld =>
            simp only [hl] at hst
            cases hlook : lookupRole cr m.clanName with
            | none =>
              simp only [hlook] at hst
              exact absurd hst (by simp)
            | some crn =>
              refine ⟨?_, by rfl⟩
              intro hflags
              cases hrole : m.role with
              | some r => rfl
              | none =>
                exfalso
                simp only [Bool.or_eq_true] at hflags
                rcases hflags with (hfa | hfb) | hfc
                · have herr := tierStep_error_of elderName dm m hfa hrole
                  rw [herr] at he
                  exact absurd he (by simp)
                · have herr := tierStep_error_of coleaderName dm m hfb hrole
                  rw [herr] at hc
                  exact absurd hc (by simp)
                · have herr := tierStep_error_of leaderName dm m hfc hrole
                  rw [herr] at hl
                  exact absurd hl (by simp)
    · rintro ⟨hflags, hlookSome⟩
      obtain ⟨crn, hcrn⟩ : ∃ crn, lookupRole cr m.clanName = some crn := by
        cases hl : lookupRole cr m.clanName with
        | none =>
          rw [hl] at hlookSome
          exact absurd hlookSome (by simp)
        | some crn => exact ⟨crn, rfl⟩
      cases hrole : m.role with
      | some r =>
        obtain ⟨e, he⟩ := tierStep_ok_roleSome elderName dm m r hrole
        obtain ⟨c, hc⟩ := tierStep_ok_roleSome coleaderName dm m r hrole
        obtain ⟨ld, hl⟩ := tierStep_ok_roleSome leaderName dm m r hrole
        cases hres : processModel cr st m with
        | ok st' => exact ⟨st', rfl⟩
        | error err =>
          exfalso
          unfold processModel at hres
          simp only [hdm, he, hc, hl, hcrn] at hres
          exact absurd hres (by simp)
      | none =>
        have hf : (dm.roles.any (fun r => pyLower r == elderName)
            || dm.roles.any (fun r => pyLower r == coleaderName)
            || dm.roles.any (fun r => pyLower r == leaderName)) = false := by
          by_contra hcon
          have hcon' : (dm.roles.any (fun r => pyLower r == elderName)
              || dm.roles.any (fun r => pyLower r == coleaderName)
              || dm.roles.any (fun r => pyLower r == leaderName)) = true := by
            revert hcon
            cases dm.roles.any (fun r => pyLower r == elderName)
              || dm.roles.any (fun r => pyLower r == coleaderName)
              || dm.roles.any (fun r => pyLower r == leaderName) <;> simp
          have := hflags hcon'
          rw [hrole] at this
          exact absurd this (by simp)
        simp only [Bool.or_eq_false_iff] at hf
        obtain ⟨⟨hf1, hf2⟩, hf3⟩ := hf
        have he := tierStep_ok_flagFalse elderName dm m hf1
        have hc := tierStep_ok_flagFalse coleaderName dm m hf2
        have hl := tierStep_ok_flagFalse leaderName dm m hf3
        cases hres : processModel cr st m with
        | ok st' => exact ⟨st', rfl⟩
        | error err =>
          exfalso
          unfold processModel at hres
          simp only [hdm, he, hc, hl, hcrn] at hres
          exact absurd hres (by simp)

/-- The classification fold succeeds exactly when every record satisfies
entryOk. -/
theorem foldl_ok_iff_entryOk (cr : List (String × String)) :
    ∀ (models : List MemberModel) (st : Buckets × List DMember),
      (∃ st', models.foldlM (processModel cr) st = Except.ok st')
        ↔ ∀ m ∈ models, entryOk cr m := by
  intro models
  induction models with
  | nil =>
    intro st
    constructor
    · intro _ m hm
      exact absurd hm (List.not_mem_nil m)
    · intro _
      refine ⟨st, ?_⟩
      simp only [List.foldlM_nil]
      rfl
  | cons m rest ih =>
    intro st
    cases hstep : processModel cr st m with
    | error err =>
      constructor
      · rintro ⟨st', hst⟩
        rw [List.foldlM_cons, hstep] at hst
        exact absurd hst (by simp [Bind.bind, Except.bind])
      · intro hall
        exfalso
        have hE := hall m (List.mem_cons_self m rest)
        obtain ⟨st', hst⟩ := (processModel_ok_iff_entryOk cr st m).mpr hE
        rw [hstep] at hst
        exact absurd hst (by simp)
    | ok st1 =>
      have hEm : entryOk cr m :=
        (processModel_ok_iff_entryOk cr st m).mp ⟨st1, hstep⟩
      constructor
      · rintro ⟨st', hst⟩
        intro mm hmm
        rcases List.mem_cons.mp hmm with h1 | h2
        · rw [h1]
          exact hEm
        · refine ((ih st1).mp ?_) mm h2
          refine ⟨st', ?_⟩
          rw [List.foldlM_cons, hstep] at hst
          simpa [Bind.bind, Except.bind] using hst
      · intro hall
        obtain ⟨st', hst⟩ :=
          (ih st1).mpr (fun mm hmm => hall mm (List.mem_cons_of_mem m hmm))
        refine ⟨st', ?_⟩
        rw [List.foldlM_cons, hstep]
        simpa [Bind.bind, Except.bind] using hst

/-- classify succeeds exactly when every roster record satisfies entryOk. -/
theorem classify_ok_iff (cr : List (String × String)) (models : List MemberModel)
    (sm : List DMember) :
    (∃ b, classify cr models sm = Except.ok b) ↔ ∀ m ∈ models, entryOk cr m := by
  rw [← foldl_ok_iff_entryOk cr models (emptyBuckets, ([] : List DMember))]
  unfold classify
  cases hfold : models.foldlM (processModel cr) (emptyBuckets, ([] : List DMember)) with
  | error err =>
    constructor
    · rintro ⟨b, hb⟩
      exact absurd hb (by simp)
    · rintro ⟨st', hst⟩
      exact absurd hst (by simp)
  | ok st =>
    obtain ⟨b', dms⟩ := st
    constructor
    · intro _
      exact ⟨(b', dms), rfl⟩
    · intro _
      exact ⟨_, rfl⟩

/-- A resolved record with a present roster role and a clan absent from
clan_roles makes the loop body raise KeyError with the clan name. -/
theorem processModel_keyError (cr : List (String × String))
    (st : Buckets × List DMember) (m : MemberModel) (dm : DMember) (r : String)
    (hdm : m.discordMember = some dm) (hrole : m.role = some r)
    (hlook : lookupRole cr m.clanName = none) :
    processModel cr st m = Except.error (PyErr.keyError m.clanName) := by
  obtain ⟨e, he⟩ := tierStep_ok_roleSome elderName dm m r hrole
  obtain ⟨c, hc⟩ := tierStep_ok_roleSome coleaderName dm m r hrole
  obtain ⟨ld, hl⟩ := tierStep_ok_roleSome leaderName dm m r hrole
  unfold processModel
  simp only [hdm, he, hc, hl, hlook]

/-- List.contains agrees with membership on role-name lists. -/
theorem contains_iff_mem (l : List String) (a : String) :
    l.contains a = true ↔ a ∈ l :=
  List.elem_iff

/-! ## The role-operation planner (the --exec sections, lines 770-825) -/

/-- A proposed role mutation. -/
inductive RoleAction where
  | grant
  | revoke
deriving DecidableEq

/-- One role operation emitted by the executor sections. -/
structure RoleOp where
  memberId : Nat
  action : RoleAction
  roleName : String
deriving DecidableEq

/-- The values() of the clan_roles dict, in insertion order. -/
def clanRoleValues (cr : List (String × String)) : List String :=
  cr.map Prod.snd

/-- The no_clan_role executor of lines 772-790: for each pairing, look up
the clan's role name (the try/except KeyError skips the pairing when the
clan is unknown), revoke every other configured clan role the member
holds, in values() order, then grant the clan's role. -/
def planNoClanRole (cr : List (String × String))
    (bucket : List (DMember × MemberModel)) : List RoleOp :=
  bucket.foldl
    (fun ops p =>
      match lookupRole cr p.2.clanName with
      | none => ops
      | some crn =>
        ops
        ++ ((((clanRoleValues cr).filter (fun rn => rn != crn)).filter
              (fun rn => p.1.roles.contains rn)).map
            (fun rn => RoleOp.mk p.1.id RoleAction.revoke rn))
        ++ [RoleOp.mk p.1.id RoleAction.grant crn])
    []

/-- The operations lines 772-790 emit for a single no_clan_role pairing. -/
def pairOps (cr : List (String × String)) (p : DMember × MemberModel) :
    List RoleOp :=
  match lookupRole cr p.2.clanName with
  | none => []
  | some crn =>
    ((((clanRoleValues cr).filter (fun rn => rn != crn)).filter
        (fun rn => p.1.roles.contains rn)).map
      (fun rn => RoleOp.mk p.1.id RoleAction.revoke rn))
    ++ [RoleOp.mk p.1.id RoleAction.grant crn]

/-- The not_in_our_clans executor of lines 803-825: skip members holding
any exempt role; otherwise revoke each held role among Member, Tourney,
Practice, then grant Visitor. -/
def planNotInOurClans (bucket : List DMember) : List RoleOp :=
  bucket.foldl
    (fun ops u =>
      if u.roles.contains specialRoleName then ops
      else if u.roles.contains keepMemberRoleName then ops
      else if u.roles.contains leaderEmeritusRoleName then ops
      else
        ops
        ++ (([memberRoleName, tourneyRoleName, practiceRoleName].filter
              (fun rn => u.roles.contains rn)).map
            (fun rn => RoleOp.mk u.id RoleAction.revoke rn))
        ++ [RoleOp.mk u.id RoleAction.grant visitorRoleName])
    []

/-- The operations lines 803-825 emit for a single not_in_our_clans
member. -/
def userOps (u : DMember) : List RoleOp :=
  if u.roles.contains specialRoleName || u.roles.contains keepMemberRoleName
      || u.roles.contains leaderEmeritusRoleName then []
  else
    (([memberRoleName, tourneyRoleName, practiceRoleName].filter
        (fun rn => u.roles.contains rn)).map
      (fun rn => RoleOp.mk u.id RoleAction.revoke rn))
    ++ [RoleOp.mk u.id RoleAction.grant visitorRoleName]

/-- Folding an append-accumulator is concatenation of the per-element
lists. -/
theorem foldl_append_eq_flatMap {α β : Type} (g : α → List β) :
    ∀ (l : List α) (init : List β),
      l.foldl (fun acc x => acc ++ g x) init = init ++ l.flatMap g := by
  intro l
  induction l with
  | nil =>
    intro init
    simp
  | cons x xs ih =>
    intro init
    rw [List.foldl_cons, ih, List.flatMap_cons, List.append_assoc]

/-- The no_clan_role executor emits exactly the per-pairing operations, in
bucket order. -/
theorem planNoClanRole_eq_flatMap (cr : List (String × String))
    (bucket : List (DMember × MemberModel)) :
    planNoClanRole cr bucket = bucket.flatMap (pairOps cr) := by
  unfold planNoClanRole
  have hbody : (fun (ops : List RoleOp) (p : DMember × MemberModel) =>
      match lookupRole cr p.2.clanName with
      | none => ops
      | some crn =>
        ops
        ++ ((((clanRoleValues cr).filter (fun rn => rn != crn)).filter
              (fun rn => p.1.roles.contains rn)).map
            (fun rn => RoleOp.mk p.1.id RoleAction.revoke rn))
        ++ [RoleOp.mk p.1.id RoleAction.grant crn])
      = (fun ops p => ops ++ pairOps cr p) := by
    funext ops p
    unfold pairOps
    cases hl : lookupRole cr p.2.clanName with
    | none => simp
    | some crn => simp [List.append_assoc]
  rw [hbody, foldl_append_eq_flatMap (pairOps cr) bucket []]
  simp

/-- The not_in_our_clans executor emits exactly the per-member operations,
in bucket order. -/
theorem planNotInOurClans_eq_flatMap (bucket : List DMember) :
    planNotInOurClans bucket = bucket.flatMap userOps := by
  unfold planNotInOurClans
  have hbody : (fun (ops : List RoleOp) (u : DMember) =>
      if u.roles.contains specialRoleName then ops
      else if u.roles.contains keepMemberRoleName then ops
      else if u.roles.contains leaderEmeritusRoleName then ops
      else
        ops
        ++ (([memberRoleName, tourneyRoleName, practiceRoleName].filter
              (fun rn => u.roles.contains rn)).map
            (fun rn => RoleOp.mk u.id RoleAction.revoke rn))
        ++ [RoleOp.mk u.id RoleAction.grant visitorRoleName])
      = (fun ops u => ops ++ userOps u) := by
    funext ops u
    unfold userOps
    by_cases h1 : specialRoleName ∈ u.roles
    · simp [h1]
    · by_cases h2 : keepMemberRoleName ∈ u.roles
      · simp [h1, h2]
      · by_cases h3 : leaderEmeritusRoleName ∈ u.roles
        · simp [h1, h2, h3]
        · simp [h1, h2, h3, List.append_assoc]
  rw [hbody, foldl_append_eq_flatMap userOps bucket []]
  simp

/-! ## Concrete inputs used in witnesses and counterexamples -/

/-- Configured role name of clan Alpha. -/
def alphaRole : String := "AlphaRole"

/-- Configured role name of clan Bravo. -/
def bravoRole : String := "BravoRole"

/-- A two-clan configuration. -/
def crEx : List (String × String) := [("Alpha", alphaRole), ("Bravo", bravoRole)]

/-- The roster role string of an ordinary member. -/
def memberLower : String := "member"

/-- A clan name absent from crEx. -/
def charlieClan : String := "Charlie"

/-- A Discord member holding both the Elder and the Coleader role. -/
def dmOverlap : DMember := ⟨1, ["Elder", "Coleader", "AlphaRole", "Member"]⟩

/-- A roster record resolving to dmOverlap, with roster role member. -/
def mOverlap : MemberModel :=
  ⟨"TAGA", "PA", some memberLower, some 4100, "Alpha", some dmOverlap⟩

/-- Result of classifying [mOverlap] against crEx. -/
def bucketsC4 : Buckets := ⟨[mOverlap], [mOverlap], [], [], [], [], []⟩

/-- A Discord member holding only the Member role. -/
def dmNoRole : DMember := ⟨2, ["Member"]⟩

/-- A roster record resolving to dmNoRole, clan Alpha, whose member lacks
AlphaRole. -/
def mNoClanRole : MemberModel :=
  ⟨"TAGB", "PB", some memberLower, some 3000, "Alpha", some dmNoRole⟩

/-- Result of classifying [mNoClanRole] against crEx. -/
def bucketsC5 : Buckets := ⟨[], [], [], [], [(dmNoRole, mNoClanRole)], [], []⟩

/-- A Discord member for the unknown-clan record. -/
def dmC2 : DMember := ⟨3, ["Member"]⟩

/-- A roster record whose clan Charlie is not configured. -/
def mUnknownClan : MemberModel :=
  ⟨"TAGC", "PC", some memberLower, some 2000, charlieClan, some dmC2⟩

/-- A roster record with no trophies field (and no roster role, no
Discord resolution). -/
def mNoTrophies : MemberModel := ⟨"TAGD", "PD", none, none, "Alpha", none⟩

/-- Result of classifying [mNoTrophies, mNoClanRole] against crEx. -/
def bucketsC3 : Buckets :=
  ⟨[], [], [], [mNoTrophies], [(dmNoRole, mNoClanRole)], [], []⟩

/-- A community member with the Member role, not resolved from the
roster. -/
def uOrphan : DMember := ⟨5, ["Member", "Tourney"]⟩

/-- A server member directory with one orphan and one resolved member. -/
def smEx : List DMember := [uOrphan, dmNoRole]

/-- Result of classifying [mNoClanRole] against crEx with members smEx. -/
def bucketsC7 : Buckets :=
  ⟨[], [], [], [], [(dmNoRole, mNoClanRole)], [], [uOrphan]⟩

/-- An orphaned community member holding the exempt Special role. -/
def uSpecial : DMember := ⟨6, ["Member", "Special"]⟩

/-! ## The claims -/

/-- C2 (corrected): a roster entry whose clan is missing from the clan
configuration is not excluded and reported as UnknownClanForRole; instead
the bare dict indexing of line 672 raises KeyError with the clan name, so
classification aborts, the run fails, and the entries after the bad one
are never classified. -/
theorem classify_keyError_unknown_clan (cr : List (String × String))
    (pre post : List MemberModel) (sm : List DMember) (m : MemberModel)
    (dm : DMember) (r : String) (st : Buckets × List DMember)
    (hpre : pre.foldlM (processModel cr) (emptyBuckets, ([] : List DMember))
      = Except.ok st)
    (hdm : m.discordMember = some dm) (hrole : m.role = some r)
    (hlook : lookupRole cr m.clanName = none) :
    classify cr (pre ++ m :: post) sm
      = Except.error (PyErr.keyError m.clanName) := by
  have hkey := processModel_keyError cr st m dm r hdm hrole hlook
  unfold classify
  rw [List.foldlM_append, hpre]
  simp only [List.foldlM_cons, hkey, Bind.bind, Except.bind]

/-- Witness for classify_keyError_unknown_clan at a concrete run. -/
theorem classify_keyError_witness :
    classify crEx ([] ++ mUnknownClan :: [mNoClanRole]) []
      = Except.error (PyErr.keyError mUnknownClan.clanName) :=
  classify_keyError_unknown_clan crEx [] [mNoClanRole] [] mUnknownClan dmC2
    memberLower (emptyBuckets, []) rfl rfl rfl rfl

/-- C2 counterexample: with clan Charlie absent from the configuration the
run aborts with KeyError; the following record, which classifies fine on
its own, is never classified, and no separate report is produced. -/
theorem classify_unknown_clan_aborts :
    classify crEx [mUnknownClan, mNoClanRole] []
      = Except.error (PyErr.keyError charlieClan) := by
  rfl

/-- C3 (corrected): classification never reads the trophies field, so a
record with missing trophies is classified like any other and produces no
MalformedEntry (or any other) report: replacing every record's trophies
arbitrarily never changes whether classification succeeds. -/
theorem classify_ignores_trophies (cr : List (String × String))
    (models : List MemberModel) (sm : List DMember)
    (f : MemberModel → Option Int) :
    (∃ b, classify cr (models.map (fun m => { m with trophies := f m })) sm
      = Except.ok b)
      ↔ (∃ b, classify cr models sm = Except.ok b) := by
  rw [classify_ok_iff, classify_ok_iff]
  constructor
  · intro hall m hm
    exact hall { m with trophies := f m } (List.mem_map_of_mem _ hm)
  · intro hall m' hm'
    obtain ⟨m, hm, hmap⟩ := List.mem_map.mp hm'
    rw [← hmap]
    exact hall m hm

/-- C3 counterexample: on a roster containing a record with no trophies
the run completes normally, the record is classified into an ordinary
bucket, the rest of the roster is processed, and the result carries no
MalformedEntry or error value of any kind: the absence is silent. -/
theorem classify_missing_trophies_no_report :
    classify crEx [mNoTrophies, mNoClanRole] [] = Except.ok bucketsC3 := by
  rfl

/-- C4 (confirmed): each promotion bucket holds exactly the roster entries
whose resolved member has a Discord role lowercasing to the tier name
while the roster role, lowercased, differs from it; the three tier tests
are independent, and a single member can appear in more than one
promotion bucket in the same run. -/
theorem promotion_buckets_spec (cr : List (String × String))
    (models : List MemberModel) (sm : List DMember) (b : Buckets)
    (h : classify cr models sm = Except.ok b) :
    b.elder_promotion_req = models.filter (promoReq elderName)
    ∧ b.coleader_promotion_req = models.filter (promoReq coleaderName)
    ∧ b.leader_promotion_req = models.filter (promoReq leaderName)
    ∧ ∃ (cr2 : List (String × String)) (models2 : List MemberModel)
        (sm2 : List DMember) (b2 : Buckets) (m2 : MemberModel),
        classify cr2 models2 sm2 = Except.ok b2
        ∧ m2 ∈ b2.elder_promotion_req ∧ m2 ∈ b2.coleader_promotion_req := by
  obtain ⟨i1, i2, i3, _, _, _, _⟩ := classify_ok_eq cr models sm b h
  refine ⟨i1, i2, i3, crEx, [mOverlap], [], bucketsC4, mOverlap, ?_, ?_, ?_⟩
  · rfl
  · decide
  · decide

/-- Witness for promotion_buckets_spec at a concrete run. -/
theorem promotion_buckets_witness :
    bucketsC4.elder_promotion_req = [mOverlap].filter (promoReq elderName) :=
  (promotion_buckets_spec crEx [mOverlap] [] bucketsC4 rfl).1

/-- C5 (confirmed): for a resolved pair whose clan is configured, the pair
of both references is in the no_clan_role bucket exactly when the member
does not hold the clan's configured role name. -/
theorem no_clan_role_membership (cr : List (String × String))
    (models : List MemberModel) (sm : List DMember) (b : Buckets)
    (m : MemberModel) (dm : DMember) (crn : String)
    (h : classify cr models sm = Except.ok b) (hm : m ∈ models)
    (hdm : m.discordMember = some dm)
    (hcrn : lookupRole cr m.clanName = some crn) :
    ((dm, m) ∈ b.no_clan_role ↔ crn ∉ dm.roles) := by
  obtain ⟨_, _, _, _, i5, _, _⟩ := classify_ok_eq cr models sm b h
  rw [i5]
  constructor
  · intro hmem
    obtain ⟨m', hm', hf⟩ := List.mem_filterMap.mp hmem
    unfold noClanRolePair at hf
    cases hdm' : m'.discordMember with
    | none =>
      simp only [hdm'] at hf
      exact absurd hf (by simp)
    | some dm' =>
      simp only [hdm'] at hf
      cases hlook' : lookupRole cr m'.clanName with
      | none =>
        simp only [hlook'] at hf
        exact absurd hf (by simp)
      | some crn' =>
        simp only [hlook'] at hf
        by_cases hcon : dm'.roles.contains crn' = true
        · rw [if_pos hcon] at hf
          exact absurd hf (by simp)
        · rw [if_neg hcon] at hf
          have hpq : dm' = dm ∧ m' = m := by
            have h2 := hf
            simp only [Option.some.injEq, Prod.mk.injEq] at h2
            exact h2
          obtain ⟨hdmEq, hmEq⟩ := hpq
          rw [hmEq, hcrn] at hlook'
          have hcc : crn = crn' := by
            have h3 := hlook'
            simp only [Option.some.injEq] at h3
            exact h3
          intro hin
          rw [← hdmEq] at hin
          rw [hcc] at hin
          exact hcon ((contains_iff_mem dm'.roles crn').mpr hin)
  · intro hnot
    apply List.mem_filterMap.mpr
    refine ⟨m, hm, ?_⟩
    unfold noClanRolePair
    simp only [hdm, hcrn]
    rw [if_neg]
    intro hc
    exact hnot ((contains_iff_mem dm.roles crn).mp hc)

/-- Witness for no_clan_role_membership at a concrete run. -/
theorem no_clan_role_membership_witness :
    ((dmNoRole, mNoClanRole) ∈ bucketsC5.no_clan_role
      ↔ alphaRole ∉ dmNoRole.roles) :=
  no_clan_role_membership crEx [mNoClanRole] [] bucketsC5 mNoClanRole dmNoRole
    alphaRole rfl (by decide) rfl rfl

/-- C6 (confirmed): the no_clan_role executor processes pairings in bucket
order, and for each pairing (whose clan, coming from classification, is
always configured) emits the revocations of every other configured clan
role the member holds, in configuration order, followed by the grant of
the clan's own role. -/
theorem plan_no_clan_role_spec (cr : List (String × String))
    (models : List MemberModel) (sm : List DMember) (b : Buckets)
    (h : classify cr models sm = Except.ok b) :
    planNoClanRole cr b.no_clan_role = b.no_clan_role.flatMap (pairOps cr)
    ∧ ∀ p ∈ b.no_clan_role, ∃ crn,
        lookupRole cr p.2.clanName = some crn
        ∧ pairOps cr p
          = ((((clanRoleValues cr).filter (fun rn => rn != crn)).filter
              (fun rn => p.1.roles.contains rn)).map
              (fun rn => RoleOp.mk p.1.id RoleAction.revoke rn))
            ++ [RoleOp.mk p.1.id RoleAction.grant crn] := by
  refine ⟨planNoClanRole_eq_flatMap cr b.no_clan_role, ?_⟩
  intro p hp
  obtain ⟨_, _, _, _, i5, _, _⟩ := classify_ok_eq cr models sm b h
  rw [i5] at hp
  obtain ⟨m', hm', hf⟩ := List.mem_filterMap.mp hp
  unfold noClanRolePair at hf
  cases hdm' : m'.discordMember with
  | none =>
    simp only [hdm'] at hf
    exact absurd hf (by simp)
  | some dm' =>
    simp only [hdm'] at hf
    cases hlook' : lookupRole cr m'.clanName with
    | none =>
      simp only [hlook'] at hf
      exact absurd hf (by simp)
    | some crn' =>
      simp only [hlook'] at hf
      by_cases hcon : dm'.roles.contains crn' = true
      · rw [if_pos hcon] at hf
        exact absurd hf (by simp)
      · rw [if_neg hcon] at hf
        have hp2 : p = (dm', m') := by
          have h2 := hf
          simp only [Option.some.injEq] at h2
          exact h2.symm
        subst hp2
        refine ⟨crn', hlook', ?_⟩
        unfold pairOps
        simp only [hlook']

/-- Witness for plan_no_clan_role_spec at a concrete pairing. -/
theorem plan_no_clan_role_witness :
    ∃ crn, lookupRole crEx (dmNoRole, mNoClanRole).2.clanName = some crn
    ∧ pairOps crEx (dmNoRole, mNoClanRole)
      = ((((clanRoleValues crEx).filter (fun rn => rn != crn)).filter
          (fun rn => (dmNoRole, mNoClanRole).1.roles.contains rn)).map
          (fun rn => RoleOp.mk (dmNoRole, mNoClanRole).1.id RoleAction.revoke rn))
        ++ [RoleOp.mk (dmNoRole, mNoClanRole).1.id RoleAction.grant crn] :=
  (plan_no_clan_role_spec crEx [mNoClanRole] [] bucketsC5 rfl).2
    (dmNoRole, mNoClanRole) (by decide)

/-- C7 (confirmed): the not_in_our_clans bucket is exactly the server
members, in directory order, holding the literal Member role and whose id
is not among the members resolved from the roster. -/
theorem not_in_our_clans_spec (cr : List (String × String))
    (models : List MemberModel) (sm : List DMember) (b : Buckets)
    (h : classify cr models sm = Except.ok b) :
    b.not_in_our_clans
      = sm.filter (fun u => u.roles.contains memberRoleName
          && ! (accounted models).any (fun d => d.id == u.id)) :=
  (classify_ok_eq cr models sm b h).2.2.2.2.2.2

/-- Witness for not_in_our_clans_spec at a concrete run. -/
theorem not_in_our_clans_witness :
    bucketsC7.not_in_our_clans
      = smEx.filter (fun u => u.roles.contains memberRoleName
          && ! (accounted [mNoClanRole]).any (fun d => d.id == u.id)) :=
  not_in_our_clans_spec crEx [mNoClanRole] smEx bucketsC7 rfl

/-- C8 (confirmed): the not_in_our_clans executor emits, per member in
bucket order, nothing at all when the member holds any exempt role
(Special, Keep-Member, Leader-Emeritus), and otherwise one revoke for each
held role among Member, Tourney, Practice followed by a grant of
Visitor. -/
theorem plan_not_in_our_clans_spec (bucket : List DMember) (u : DMember) :
    planNotInOurClans bucket = bucket.flatMap userOps
    ∧ ((u.roles.contains specialRoleName || u.roles.contains keepMemberRoleName
        || u.roles.contains leaderEmeritusRoleName) = true → userOps u = [])
    ∧ ((u.roles.contains specialRoleName || u.roles.contains keepMemberRoleName
        || u.roles.contains leaderEmeritusRoleName) = false →
        userOps u
          = (([memberRoleName, tourneyRoleName, practiceRoleName].filter
              (fun rn => u.roles.contains rn)).map
              (fun rn => RoleOp.mk u.id RoleAction.revoke rn))
            ++ [RoleOp.mk u.id RoleAction.grant visitorRoleName]) := by
  refine ⟨planNotInOurClans_eq_flatMap bucket, ?_, ?_⟩
  · intro hex
    unfold userOps
    rw [hex]
    simp
  · intro hex
    unfold userOps
    rw [hex]
    simp

/-- Witness for plan_not_in_our_clans_spec: an exempt member receives no
operations. -/
theorem plan_not_in_our_clans_witness :
    userOps uSpecial = [] :=
  (plan_not_in_our_clans_spec [uSpecial] uSpecial).2.1 (by decide)

/-- C9 (confirmed): classification is deterministic: it is a pure function
of the clan configuration, the roster and the member directory, so two
runs on equal inputs produce equal bucket sequences, element for element
and in the same order. -/
theorem classify_deterministic (cr1 cr2 : List (String × String))
    (models1 models2 : List MemberModel) (sm1 sm2 : List DMember)
    (h1 : cr1 = cr2) (h2 : models1 = models2) (h3 : sm1 = sm2) :
    classify cr1 models1 sm1 = classify cr2 models2 sm2 := by
  subst h1
  subst h2
  subst h3
  rfl

/-- Witness for classify_deterministic at concrete equal inputs. -/
theorem classify_deterministic_witness :
    classify crEx [mNoClanRole] smEx = classify crEx [mNoClanRole] smEx :=
  classify_deterministic crEx crEx [mNoClanRole] [mNoClanRole] smEx smEx
    rfl rfl rfl

end RacfAudit
